import Mathlib

set_option maxRecDepth 20000

/-
Verification development for the NFC tag reader (src/nfc_reader.py).

The embedding models the card-processing pipeline `NFCCardObserver._process_card`,
the monitor callback `NFCCardObserver.update`, and the concurrency discipline of
`processing_lock` as a labelled transition system.  External collaborators
(`read_ndef`, the MQTT publisher, `createConnection`/`connect`) are parameters of
the pipeline, matching the spec's "external collaborator" treatment.  The modules
`ndef_decoder` (record decoder and classifier) are imported by the source but not
present in the repository snapshot; those definitions are modelled from the spec
and are marked as such in their doc comments.
-/

/-- Embedding of smartcard.util.toHexString as used at src/nfc_reader.py lines
95, 103, 136, 193: each byte rendered as two uppercase hex digits, bytes
separated by single spaces. -/
def hexDigitChar (n : Nat) : Char :=
  if n < 10 then Char.ofNat (48 + n) else Char.ofNat (55 + n)

/-- One byte as two uppercase hex digits. -/
def byteHex (b : Nat) : List Char :=
  [hexDigitChar ((b / 16) % 16), hexDigitChar (b % 16)]

/-- smartcard.util.toHexString on a byte list. -/
def toHexString (bs : List Nat) : String :=
  String.mk (List.intercalate [' '] (bs.map byteHex))

/-- ASCII bytes of a string, used to build concrete test inputs. -/
def strBytes (s : String) : List Nat := s.toList.map Char.toNat

/-- A decoded NDEF record.  Field names follow the attributes the source reads
at src/nfc_reader.py lines 150-187: tnf, record_type, payload, message_begin,
last_record, chunked, short_record, has_id.  The spec (§3, DecodedRecord) adds
the optional identifier field. -/
structure NdefRecord where
  tnf : Nat
  record_type : List Nat
  identifier : Option (List Nat)
  payload : List Nat
  message_begin : Bool
  last_record : Bool
  chunked : Bool
  short_record : Bool
  has_id : Bool
deriving DecidableEq

/-- Split off exactly n bytes, or fail when fewer remain (spec §4.1 step 6:
never read past the buffer end). -/
def takeExact (n : Nat) (buf : List Nat) : Option (List Nat × List Nat) :=
  if n ≤ buf.length then some (buf.take n, buf.drop n) else none

/-- Modelled from the spec: the record decoder lives in module ndef_decoder
(imported at src/nfc_reader.py line 17) which is not in the repository snapshot.
Spec §4.1: from a cursor, read one header byte (MB/ME/CF/SR/IL flags, 3-bit
TNF), a type-length byte, a payload length (1 byte if SR else 4-byte big-endian),
an identifier length byte if IL, then type / identifier / payload bytes; stop at
buffer end or after a record with last_record set; any read past the remaining
buffer is a truncation error carrying the successfully decoded prefix.  The
fuel argument only bounds recursion; fuel = buffer length + 1 always suffices
because every iteration consumes at least one byte. -/
def decodeLoop : Nat → List Nat → List NdefRecord × Option String
  | _, [] => ([], none)
  | 0, _ :: _ => ([], some "decoder fuel exhausted")
  | Nat.succ fuel, b0 :: r1 =>
    let mb := b0.testBit 7
    let me := b0.testBit 6
    let cf := b0.testBit 5
    let sr := b0.testBit 4
    let il := b0.testBit 3
    let tnfVal := b0 % 8
    match r1 with
    | [] => ([], some "truncated: type length")
    | tlen :: r2 =>
      let plenStep : Option (Nat × List Nat) :=
        if sr then
          match r2 with
          | p :: r => some (p, r)
          | [] => none
        else
          match r2 with
          | a :: b :: c :: d :: r => some (((a * 256 + b) * 256 + c) * 256 + d, r)
          | _ => none
      match plenStep with
      | none => ([], some "truncated: payload length")
      | some (plen, r3) =>
        let ilStep : Option (Nat × List Nat) :=
          if il then
            match r3 with
            | i :: r => some (i, r)
            | [] => none
          else some (0, r3)
        match ilStep with
        | none => ([], some "truncated: id length")
        | some (idLen, r4) =>
          match takeExact tlen r4 with
          | none => ([], some "truncated: record type")
          | some (rtype, r5) =>
            match takeExact idLen r5 with
            | none => ([], some "truncated: identifier")
            | some (ident, r6) =>
              match takeExact plen r6 with
              | none => ([], some "truncated: payload")
              | some (pload, r7) =>
                let rec0 : NdefRecord :=
                  { tnf := tnfVal, record_type := rtype,
                    identifier := if il then some ident else none,
                    payload := pload, message_begin := mb, last_record := me,
                    chunked := cf, short_record := sr, has_id := il }
                if me then ([rec0], none)
                else
                  match decodeLoop fuel r7 with
                  | (rs, err) => (rec0 :: rs, err)

/-- Modelled from the spec: ndef_decoder.decode_records (called at
src/nfc_reader.py line 143).  Returns the decoded records together with the
decode error, the error carrying case returning the successfully-decoded
prefix as the record list (spec §4.1, §7 DecodeFailure). -/
def decode_records (buf : List Nat) : List NdefRecord × Option String :=
  decodeLoop (buf.length + 1) buf

/-- Modelled from the spec: the NDEF URI abbreviation table (spec §4.2): index
0 is the empty string, subsequent indices are the standard RTD-URI prefixes. -/
def uriPrefixTable : List String :=
  ["", "http://www.", "https://www.", "http://", "https://", "tel:", "mailto:",
   "ftp://anonymous:anonymous@", "ftp://ftp.", "ftps://", "sftp://", "smb://",
   "nfs://", "ftp://", "dav://", "news:", "telnet://", "imap:", "rtsp://",
   "urn:", "pop:", "sip:", "sips:", "tftp:", "btspp://", "btl2cap://",
   "btgoep://", "tcpobex://", "irdaobex://", "file://", "urn:epc:id:",
   "urn:epc:tag:", "urn:epc:pat:", "urn:epc:raw:", "urn:epc:", "urn:nfc:"]

/-- Modelled from the spec: UTF-8 decoding of payload bytes (spec §4.2).
Structurally recursive on a fuel bound (buffer length suffices, every step
consumes at least one byte); malformed sequences decode to U+FFFD. -/
def utf8DecodeAux : Nat → List Nat → List Char
  | 0, _ => []
  | _ + 1, [] => []
  | fuel + 1, b :: bs =>
    if b < 0x80 then Char.ofNat b :: utf8DecodeAux fuel bs
    else if 0xC2 ≤ b && b ≤ 0xDF then
      match bs with
      | b2 :: bs2 =>
        if 0x80 ≤ b2 && b2 ≤ 0xBF then
          Char.ofNat ((b - 0xC0) * 0x40 + (b2 - 0x80)) :: utf8DecodeAux fuel bs2
        else Char.ofNat 0xFFFD :: utf8DecodeAux fuel bs
      | [] => [Char.ofNat 0xFFFD]
    else if 0xE0 ≤ b && b ≤ 0xEF then
      match bs with
      | b2 :: b3 :: bs3 =>
        if (0x80 ≤ b2 && b2 ≤ 0xBF) && (0x80 ≤ b3 && b3 ≤ 0xBF) then
          Char.ofNat ((b - 0xE0) * 0x1000 + (b2 - 0x80) * 0x40 + (b3 - 0x80)) ::
            utf8DecodeAux fuel bs3
        else Char.ofNat 0xFFFD :: utf8DecodeAux fuel bs
      | _ => [Char.ofNat 0xFFFD]
    else if 0xF0 ≤ b && b ≤ 0xF4 then
      match bs with
      | b2 :: b3 :: b4 :: bs4 =>
        if ((0x80 ≤ b2 && b2 ≤ 0xBF) && (0x80 ≤ b3 && b3 ≤ 0xBF)) &&
            (0x80 ≤ b4 && b4 ≤ 0xBF) then
          Char.ofNat
              ((b - 0xF0) * 0x40000 + (b2 - 0x80) * 0x1000 +
                (b3 - 0x80) * 0x40 + (b4 - 0x80)) ::
            utf8DecodeAux fuel bs4
        else Char.ofNat 0xFFFD :: utf8DecodeAux fuel bs
      | _ => [Char.ofNat 0xFFFD]
    else Char.ofNat 0xFFFD :: utf8DecodeAux fuel bs

/-- Modelled from the spec: UTF-8 decode of a byte list. -/
def utf8Decode (bs : List Nat) : String :=
  String.mk (utf8DecodeAux (bs.length + 1) bs)

/-- Modelled from the spec: ndef_decoder record classification (spec §4.2), a
URI record has well-known TNF (1) and the single-byte URI record type 0x55. -/
def NdefRecord.is_uri_record (r : NdefRecord) : Bool :=
  r.tnf == 1 && r.record_type == [0x55]

/-- Modelled from the spec: decoded URI of a URI record (spec §4.2): the first
payload byte indexes the abbreviation table, the decoded URI is that entry
followed by the UTF-8 decode of the remaining payload; an index outside the
table (or an empty payload) is a classification error for that record,
surfaced as no URI. -/
def NdefRecord.get_decoded_uri (r : NdefRecord) : Option String :=
  match r.payload with
  | [] => none
  | idx :: rest =>
    match uriPrefixTable.get? idx with
    | some pfx => some (pfx ++ utf8Decode rest)
    | none => none

/-- Modelled from the spec: an Android application record has external TNF (4)
and the fixed external type "android.com:pkg" (spec §4.2). -/
def NdefRecord.is_android_app_record (r : NdefRecord) : Bool :=
  r.tnf == 4 && r.record_type == strBytes "android.com:pkg"

/-- Modelled from the spec: the payload of an application record is the UTF-8
package-name string directly (spec §4.2). -/
def NdefRecord.get_android_package_name (r : NdefRecord) : Option String :=
  some (utf8Decode r.payload)

/-- Python str.startswith on code points. -/
def pyStartsWith (s pre : String) : Bool := pre.data.isPrefixOf s.data

/-- Python s[n:] on code points. -/
def pyDropChars (s : String) (n : Nat) : String := String.mk (s.data.drop n)

/-- Python len on code points. -/
def pyLen (s : String) : Nat := s.data.length

/-- Embedding of src/nfc_reader.py line 21. -/
def HA_TAG_PREFIX : String := "https://www.home-assistant.io/tag/"

/-- A record that passes the check at src/nfc_reader.py lines 163-168: it is a
URI record whose decoded URI is truthy and starts with the automation-tag
string HA_TAG_PREFIX. -/
def qualifiesHa (r : NdefRecord) : Bool :=
  r.is_uri_record &&
    match r.get_decoded_uri with
    | some uri => !(uri == "") && pyStartsWith uri HA_TAG_PREFIX
    | none => false

/-- The tag id the source extracts at src/nfc_reader.py line 169:
the decoded URI with the automation-tag string removed. -/
def tagIdOf (r : NdefRecord) : String :=
  match r.get_decoded_uri with
  | some uri => pyDropChars uri (pyLen HA_TAG_PREFIX)
  | none => ""

/-- Log lines of the source that the claims reference (only claim-relevant
logging is modelled). -/
inductive LogEntry where
  | cardInserted (atrHex : String)
  | cardRemoved (atrHex : String)
  | invalidConnectionType
  | connected
  | errorReadingNdef (msg : String)
  | noNdefData
  | decodeFailure (msg : String)
  | decodedUri (uri : Option String)
  | haTagId (tagId : String)
  | androidPackage (pkg : Option String)
  | cardReadCompleted
  | errorProcessingCard (msg : String)
  | errorInUpdate (msg : String)
deriving DecidableEq

/-- A card handle: only its ATR is read by the source. -/
structure Card where
  atr : List Nat
deriving DecidableEq

/-- Observable steps taken while handling a card event. -/
inductive Act where
  | createConn
  | connectCard
  | readCall
  | decodeCall
  | publish (v : Option String)
  | log (e : LogEntry)
  | incrCounter
  | spawn (c : Card)
deriving DecidableEq

/-- Behaviour of the external collaborators for one inserted-card event.
Except.error models the collaborator raising an exception;
read_ndef returning Except.ok (data, error) models its (data, error) pair;
publishExn v is the exception publish_tag_state(v) raises, if any. -/
structure CardEnv where
  atr : List Nat
  createConnection : Except String Bool
  connect : Except String Unit
  read_ndef : Except String (Option (List Nat) × Option String)
  publishExn : Option String → Option String

/-- Python truthiness of the error component returned by read_ndef, as tested
by the check at src/nfc_reader.py line 129. -/
def errTruthy : Option String → Bool
  | none => false
  | some m => !(m == "")

/-- Embedding of the per-record for-loop at src/nfc_reader.py lines 148-188:
for each URI record whose decoded URI starts with HA_TAG_PREFIX the source
sets ha_tag_found and publishes the tag id inside the loop (lines 163-174);
an Android application record is only logged (lines 176-179).  Returns the
actions taken, the final ha_tag_found flag, and the exception raised by a
publish call, if any (which aborts the loop). -/
def recordLoop (env : CardEnv) : List NdefRecord → Bool → List Act × Bool × Option String
  | [], haFound => ([], haFound, none)
  | r :: rs, haFound =>
    if r.is_uri_record then
      let uri := r.get_decoded_uri
      let uriActs := [Act.log (LogEntry.decodedUri uri)]
      match uri with
      | some u =>
        if !(u == "") && pyStartsWith u HA_TAG_PREFIX then
          let tagId := pyDropChars u (pyLen HA_TAG_PREFIX)
          let pubActs := uriActs ++
            [Act.log (LogEntry.haTagId tagId), Act.publish (some tagId)]
          match env.publishExn (some tagId) with
          | some e => (pubActs, true, some e)
          | none =>
            match recordLoop env rs true with
            | (acts, ha2, exn) => (pubActs ++ acts, ha2, exn)
        else
          match recordLoop env rs haFound with
          | (acts, ha2, exn) => (uriActs ++ acts, ha2, exn)
      | none =>
        match recordLoop env rs haFound with
        | (acts, ha2, exn) => (uriActs ++ acts, ha2, exn)
    else if r.is_android_app_record then
      match recordLoop env rs haFound with
      | (acts, ha2, exn) =>
        (Act.log (LogEntry.androidPackage r.get_android_package_name) :: acts, ha2, exn)
    else
      recordLoop env rs haFound

/-- Embedding of src/nfc_reader.py lines 133-138: no NDEF data on the card is
logged and the state "no_ndef_" followed by the ATR hex string is published. -/
def noNdefBranch (env : CardEnv) : List Act × Option String :=
  let st := "no_ndef_" ++ toHexString env.atr
  ([Act.log LogEntry.noNdefData, Act.publish (some st)],
    env.publishExn (some st))

/-- Embedding of the try-block body of NFCCardObserver._process_card
(src/nfc_reader.py lines 114-200): create and validate the connection, connect,
call read_ndef, and branch on (data, error); with data present decode the
records, run the per-record loop, publish the generic fallback when no
automation tag was found, and finally increment cards_processed.  Returns the
actions taken and the exception reaching the enclosing except-clause, if any. -/
def processCardTry (env : CardEnv) : List Act × Option String :=
  match env.createConnection with
  | Except.error e => ([Act.createConn], some e)
  | Except.ok valid =>
    if !valid then ([Act.createConn, Act.log LogEntry.invalidConnectionType], none)
    else
      match env.connect with
      | Except.error e => ([Act.createConn, Act.connectCard], some e)
      | Except.ok _ =>
        let pre := [Act.createConn, Act.connectCard,
          Act.log LogEntry.connected, Act.readCall]
        match env.read_ndef with
        | Except.error e => (pre, some e)
        | Except.ok (dat, err) =>
          if errTruthy err then
            (pre ++ [Act.log (LogEntry.errorReadingNdef (err.getD ""))], none)
          else if dat.getD [] == [] then
            match noNdefBranch env with
            | (acts, exn) => (pre ++ acts, exn)
          else
            match decode_records (dat.getD []) with
            | (records, decErr) =>
              let decActs := Act.decodeCall ::
                (match decErr with
                 | some m => [Act.log (LogEntry.decodeFailure m)]
                 | none => [])
              match recordLoop env records false with
              | (lacts, haFound, exn) =>
                match exn with
                | some e => (pre ++ decActs ++ lacts, some e)
                | none =>
                  if !haFound then
                    let g := "generic_" ++ toHexString env.atr
                    match env.publishExn (some g) with
                    | some e =>
                      (pre ++ decActs ++ lacts ++ [Act.publish (some g)], some e)
                    | none =>
                      (pre ++ decActs ++ lacts ++
                        [Act.publish (some g), Act.incrCounter,
                          Act.log LogEntry.cardReadCompleted], none)
                  else
                    (pre ++ decActs ++ lacts ++
                      [Act.incrCounter, Act.log LogEntry.cardReadCompleted], none)

/-- Result of one card event handler: the actions taken and the exception that
escaped the handler, if any. -/
structure ProcResult where
  actions : List Act
  escaped : Option String
deriving DecidableEq

/-- Embedding of NFCCardObserver._process_card (src/nfc_reader.py lines
111-203): the try-block body wrapped in the except-clause at lines 202-203,
which logs the error and lets nothing escape. -/
def processCard (env : CardEnv) : ProcResult :=
  match processCardTry env with
  | (acts, some e) => ⟨acts ++ [Act.log (LogEntry.errorProcessingCard e)], none⟩
  | (acts, none) => ⟨acts, none⟩

/-- Select the publish calls from an action list. -/
def pubOf : Act → Option (Option String)
  | Act.publish v => some v
  | _ => none

/-- The publish calls in an action list, in order. -/
def publishesOf (acts : List Act) : List (Option String) := acts.filterMap pubOf

/-- The publish calls an event handler performed, in order. -/
def ProcResult.publishes (res : ProcResult) : List (Option String) :=
  publishesOf res.actions

/-- Select the log entries from an action list. -/
def logOf : Act → Option LogEntry
  | Act.log e => some e
  | _ => none

/-- The log entries an event handler produced, in order. -/
def ProcResult.logs (res : ProcResult) : List LogEntry := res.actions.filterMap logOf

/-- Whether an action is the cards_processed increment. -/
def isIncr : Act → Bool
  | Act.incrCounter => true
  | _ => false

/-- How much an event handler added to cards_processed. -/
def ProcResult.counterDelta (res : ProcResult) : Nat := res.actions.countP isIncr

/-- Select the thread spawns from an action list. -/
def spawnOf : Act → Option Card
  | Act.spawn c => some c
  | _ => none

/-- The cards for which an event handler started a processing thread. -/
def ProcResult.spawns (res : ProcResult) : List Card := res.actions.filterMap spawnOf

/-- Behaviour of the collaborators used directly by NFCCardObserver.update:
spawnExn c is the exception Thread(...).start() raises for card c, if any;
publishExn v the exception publish_tag_state(v) raises, if any. -/
structure UpdateEnv where
  spawnExn : Card → Option String
  publishExn : Option String → Option String

/-- Embedding of the insertion loop at src/nfc_reader.py lines 94-99: log the
insertion and start one daemon thread per added card. -/
def insertLoop (uenv : UpdateEnv) : List Card → List Act × Option String
  | [] => ([], none)
  | c :: cs =>
    let acts := [Act.log (LogEntry.cardInserted (toHexString c.atr)), Act.spawn c]
    match uenv.spawnExn c with
    | some e => (acts, some e)
    | none =>
      match insertLoop uenv cs with
      | (more, exn) => (acts ++ more, exn)

/-- Embedding of the removal loop at src/nfc_reader.py lines 101-105: log the
removal and publish the absence marker (None) per removed card. -/
def removeLoop (uenv : UpdateEnv) : List Card → List Act × Option String
  | [] => ([], none)
  | c :: cs =>
    let acts := [Act.log (LogEntry.cardRemoved (toHexString c.atr)), Act.publish none]
    match uenv.publishExn none with
    | some e => (acts, some e)
    | none =>
      match removeLoop uenv cs with
      | (more, exn) => (acts ++ more, exn)

/-- Embedding of the try-block body of NFCCardObserver.update (src/nfc_reader.py
lines 87-105): first the insertion loop, then the removal loop. -/
def updateTry (uenv : UpdateEnv) (added removed : List Card) : List Act × Option String :=
  match insertLoop uenv added with
  | (a1, some e) => (a1, some e)
  | (a1, none) =>
    match removeLoop uenv removed with
    | (a2, exn) => (a1 ++ a2, exn)

/-- Embedding of NFCCardObserver.update (src/nfc_reader.py lines 81-109): the
body wrapped in the except-clause at lines 107-109, which logs the error and
lets nothing escape to the monitor. -/
def update (uenv : UpdateEnv) (added removed : List Card) : ProcResult :=
  match updateTry uenv added removed with
  | (acts, some e) => ⟨acts ++ [Act.log (LogEntry.errorInUpdate e)], none⟩
  | (acts, none) => ⟨acts, none⟩

/-- The monitor delivering a sequence of event batches to the observer: one
update call per batch. -/
def monitorRun (uenv : UpdateEnv) (batches : List (List Card × List Card)) : List ProcResult :=
  batches.map fun b => update uenv b.1 b.2

/-- One scheduling step of a card-processing task: the lock acquisition at
src/nfc_reader.py line 113 (entry to the with-statement), the release at its
exit, or one pipeline action taken while inside it. -/
inductive PStep where
  | acquire
  | release
  | act (a : Act)
deriving DecidableEq

/-- The program a spawned card thread runs: NFCCardObserver._process_card
wraps its whole body in the with-statement on processing_lock
(src/nfc_reader.py line 113), so every pipeline action sits between the
acquisition and the release. -/
def program (env : CardEnv) : List PStep :=
  PStep.acquire :: (processCard env).actions.map PStep.act ++ [PStep.release]

/-- State of two concurrently running card tasks: each task's remaining
program and the current holder of processing_lock. -/
structure SysState where
  progs : Fin 2 → List PStep
  holder : Option (Fin 2)

/-- Interleaving semantics: a task may acquire the lock only when no task
holds it; a release frees it; an action inside the with-statement leaves it
unchanged. -/
inductive LStep : SysState → Fin 2 → PStep → SysState → Prop where
  | acquire (s : SysState) (i : Fin 2) (rest : List PStep)
      (hp : s.progs i = PStep.acquire :: rest) (hh : s.holder = none) :
      LStep s i PStep.acquire ⟨Function.update s.progs i rest, some i⟩
  | release (s : SysState) (i : Fin 2) (rest : List PStep)
      (hp : s.progs i = PStep.release :: rest) :
      LStep s i PStep.release ⟨Function.update s.progs i rest, none⟩
  | act (s : SysState) (i : Fin 2) (a : Act) (rest : List PStep)
      (hp : s.progs i = PStep.act a :: rest) :
      LStep s i (PStep.act a) ⟨Function.update s.progs i rest, s.holder⟩

/-- The program either of the two tasks runs. -/
def programOf (e0 e1 : CardEnv) (i : Fin 2) : List PStep :=
  if i = 0 then program e0 else program e1

/-- Initial state: both card tasks are about to run their full pipeline and
the lock is free. -/
def initState (e0 e1 : CardEnv) : SysState :=
  ⟨fun i => programOf e0 e1 i, none⟩

/-- States reachable by interleaving the two card tasks from the initial
state. -/
inductive Reachable (e0 e1 : CardEnv) : SysState → Prop where
  | init : Reachable e0 e1 (initState e0 e1)
  | step {s : SysState} {i : Fin 2} {p : PStep} {s' : SysState} :
      Reachable e0 e1 s → LStep s i p s' → Reachable e0 e1 s'

/-- Task i is inside its critical section: it has performed its lock
acquisition (its program moved) but not yet its release (its program is not
exhausted) — i.e. it is somewhere inside the read/decode/classify/publish
sequence. -/
def inCritical (e0 e1 : CardEnv) (s : SysState) (i : Fin 2) : Prop :=
  s.progs i ≠ programOf e0 e1 i ∧ s.progs i ≠ []

/-- The lock invariant: each task's remaining program is a suffix of its full
program, and a task strictly inside its with-statement holds the lock. -/
def LockInv (e0 e1 : CardEnv) (s : SysState) : Prop :=
  (∀ i, List.IsSuffix (s.progs i) (programOf e0 e1 i)) ∧
  (∀ i, inCritical e0 e1 s i → s.holder = some i)

/-- NDEF bytes of two short-record URI records: MB set on the first, ME on the
second, both well-known TNF with type U and abbreviation index 2
("https://www."), suffixes "first" and "second" under the automation-tag
host and path. -/
def twoTagData : List Nat :=
  [0x91, 0x01, 28, 0x55, 0x02] ++ strBytes "home-assistant.io/tag/first" ++
  [0x51, 0x01, 29, 0x55, 0x02] ++ strBytes "home-assistant.io/tag/second"

/-- Collaborator behaviour for a card carrying twoTagData: every external call
succeeds. -/
def envTwoTags : CardEnv :=
  { atr := [0x3B, 0x10]
    createConnection := Except.ok true
    connect := Except.ok ()
    read_ndef := Except.ok (some twoTagData, none)
    publishExn := fun _ => none }

/-- NDEF bytes of one automation-tag URI record (suffix "abc123", MB set, ME
clear) followed by a lone header byte 0xD1: decoding the second record fails
with a truncation error after the first record was decoded. -/
def truncTagData : List Nat :=
  [0x91, 0x01, 29, 0x55, 0x02] ++ strBytes "home-assistant.io/tag/abc123" ++ [0xD1]

/-- Collaborator behaviour for a card carrying truncTagData. -/
def envTrunc : CardEnv :=
  { atr := [0x3B, 0x10]
    createConnection := Except.ok true
    connect := Except.ok ()
    read_ndef := Except.ok (some truncTagData, none)
    publishExn := fun _ => none }

/-- NDEF bytes of a single Android application record (TNF external, type
"android.com:pkg", payload "com.example.app", MB and ME set). -/
def aarData : List Nat :=
  [0xD4, 15, 15] ++ strBytes "android.com:pkg" ++ strBytes "com.example.app"

/-- The record aarData decodes to. -/
def aarRec : NdefRecord :=
  { tnf := 4, record_type := strBytes "android.com:pkg", identifier := none,
    payload := strBytes "com.example.app", message_begin := true,
    last_record := true, chunked := false, short_record := true, has_id := false }

/-- Collaborator behaviour for a card carrying aarData. -/
def envAar : CardEnv :=
  { atr := [0x3B, 0x10]
    createConnection := Except.ok true
    connect := Except.ok ()
    read_ndef := Except.ok (some aarData, none)
    publishExn := fun _ => none }

/-- Collaborator behaviour where read_ndef reports an error. -/
def envReadErr : CardEnv :=
  { atr := [0x3B, 0x10]
    createConnection := Except.ok true
    connect := Except.ok ()
    read_ndef := Except.ok (none, some "read failed")
    publishExn := fun _ => none }

/-- Collaborator behaviour where the card has no NDEF data. -/
def envNoData : CardEnv :=
  { atr := [0x3B, 0x10]
    createConnection := Except.ok true
    connect := Except.ok ()
    read_ndef := Except.ok (none, none)
    publishExn := fun _ => none }

/-- Collaborator behaviour where connection.connect() raises. -/
def envConnectFail : CardEnv :=
  { atr := [0x3B, 0x10]
    createConnection := Except.ok true
    connect := Except.error "connect failed"
    read_ndef := Except.ok (none, none)
    publishExn := fun _ => none }

/-- Monitor collaborators that never raise. -/
def uenvOk : UpdateEnv :=
  { spawnExn := fun _ => none, publishExn := fun _ => none }

/-- A concrete card handle. -/
def card0 : Card := ⟨[0x3B, 0x10]⟩
/-- The decode-step actions: the decode call and, when decoding failed, the
decode-failure log. -/
def decActsOf (decErr : Option String) : List Act :=
  Act.decodeCall ::
    (match decErr with
     | some m => [Act.log (LogEntry.decodeFailure m)]
     | none => [])
/-- The tail of the data path: generic fallback publish when no automation tag
was found, then the counter increment and the completion log. -/
def tailActsOf (env : CardEnv) (haF : Bool) : List Act :=
  if haF then [Act.incrCounter, Act.log LogEntry.cardReadCompleted]
  else [Act.publish (some ("generic_" ++ toHexString env.atr)),
        Act.incrCounter, Act.log LogEntry.cardReadCompleted]
/-- An action is one of the pipeline steps a removal must not take. -/
def isPipelineStep : Act → Bool
  | Act.createConn => true
  | Act.connectCard => true
  | Act.readCall => true
  | Act.decodeCall => true
  | Act.incrCounter => true
  | _ => false

theorem suffix_release_aux (m : List PStep) (hm : ∀ x ∈ m, x ≠ PStep.release) :
    ∀ rest, List.IsSuffix (PStep.release :: rest) (m ++ [PStep.release]) → rest = [] := by
  induction m with
  | nil =>
    intro rest h
    rcases h with ⟨t, ht⟩
    cases t with
    | nil => simpa using ht
    | cons y t' =>
      exfalso
      have := congrArg List.length ht
      simp at this
  | cons x m' ih =>
    intro rest h
    rcases h with ⟨t, ht⟩
    cases t with
    | nil =>
      exfalso
      have hx : x = PStep.release := by
        have := congrArg (fun l => l.head?) ht
        simpa using this.symm
      exact hm x (by simp) hx
    | cons y t' =>
      apply ih (fun z hz => hm z (by simp [hz]))
      refine ⟨t', ?_⟩
      have := ht
      simp only [List.cons_append] at this
      exact (List.cons_eq_cons.mp this).2

/-- In any program built by `program`, a pending release is the last step. -/
theorem suffix_release (env : CardEnv) (rest : List PStep)
    (h : List.IsSuffix (PStep.release :: rest) (program env)) : rest = [] := by
  apply suffix_release_aux (PStep.acquire :: (processCard env).actions.map PStep.act)
  · intro x hx
    rcases List.mem_cons.mp hx with h1 | h2
    · subst h1; intro hc; cases hc
    · rcases List.mem_map.mp h2 with ⟨a, _, ha⟩
      subst ha; intro hc; cases hc
  · simpa [program] using h

theorem programOf_head (e0 e1 : CardEnv) (i : Fin 2) :
    ∃ tl, programOf e0 e1 i = PStep.acquire :: tl := by
  by_cases h : i = 0 <;> simp [programOf, h, program]

theorem lockInv_init (e0 e1 : CardEnv) : LockInv e0 e1 (initState e0 e1) := by
  constructor
  · intro i; exact List.suffix_refl _
  · intro i hi
    exact absurd rfl hi.1

theorem lockInv_step (e0 e1 : CardEnv) (s : SysState) (i : Fin 2) (p : PStep)
    (s' : SysState) (hInv : LockInv e0 e1 s) (hs : LStep s i p s') :
    LockInv e0 e1 s' := by
  obtain ⟨hsuf, hcrit⟩ := hInv
  cases hs with
  | acquire rest hp hh =>
    constructor
    · intro j
      by_cases hj : j = i
      · subst hj
        simp only [Function.update_same]
        exact (List.suffix_cons _ _).trans (hp ▸ hsuf j)
      · simp only [Function.update_noteq hj]
        exact hsuf j
    · intro j hj
      by_cases hji : j = i
      · subst hji; rfl
      · exfalso
        have hcj : inCritical e0 e1 s j := by
          simpa [inCritical, Function.update_noteq hji] using hj
        rw [hcrit j hcj] at hh
        cases hh
  | release rest hp =>
    have hrest : rest = [] := by
      apply suffix_release (if i = 0 then e0 else e1)
      have := hp ▸ hsuf i
      by_cases h : i = 0 <;> simp only [programOf, h, if_true, if_false] at this <;>
        simpa [h] using this
    constructor
    · intro j
      by_cases hj : j = i
      · subst hj
        simp only [Function.update_same]
        exact ((List.suffix_cons _ _).trans (hp ▸ hsuf j))
      · simp only [Function.update_noteq hj]
        exact hsuf j
    · intro j hj
      exfalso
      by_cases hji : j = i
      · subst hji
        have : rest ≠ [] := by
          simpa [inCritical, Function.update_same] using hj.2
        exact this hrest
      · have hcj : inCritical e0 e1 s j := by
          simpa [inCritical, Function.update_noteq hji] using hj
        have hci : inCritical e0 e1 s i := by
          constructor
          · rw [hp]
            obtain ⟨tl, htl⟩ := programOf_head e0 e1 i
            rw [htl]
            intro hc
            cases hc
          · rw [hp]; simp
        have h1 := hcrit j hcj
        have h2 := hcrit i hci
        rw [h1] at h2
        have : j = i := by
          injection h2 with h3
        exact hji this
  | act a rest hp =>
    have hci : inCritical e0 e1 s i := by
      constructor
      · rw [hp]
        obtain ⟨tl, htl⟩ := programOf_head e0 e1 i
        rw [htl]
        intro hc
        cases hc
      · rw [hp]; simp
    have hhold := hcrit i hci
    constructor
    · intro j
      by_cases hj : j = i
      · subst hj
        simp only [Function.update_same]
        exact ((List.suffix_cons _ _).trans (hp ▸ hsuf j))
      · simp only [Function.update_noteq hj]
        exact hsuf j
    · intro j hj
      by_cases hji : j = i
      · subst hji; simpa using hhold
      · exfalso
        have hcj : inCritical e0 e1 s j := by
          simpa [inCritical, Function.update_noteq hji] using hj
        have h1 := hcrit j hcj
        rw [hhold] at h1
        have : i = j := by injection h1 with h3
        exact hji this.symm

theorem lockInv_reachable (e0 e1 : CardEnv) (s : SysState)
    (h : Reachable e0 e1 s) : LockInv e0 e1 s := by
  induction h with
  | init => exact lockInv_init e0 e1
  | step hr hs ih => exact lockInv_step e0 e1 _ _ _ _ ih hs

theorem publishesOf_append (a b : List Act) :
    publishesOf (a ++ b) = publishesOf a ++ publishesOf b := by
  simp [publishesOf]

theorem countP_isIncr_append (a b : List Act) :
    (a ++ b).countP isIncr = a.countP isIncr + b.countP isIncr := by
  simp [List.countP_append]

theorem publishesOf_log_cons (e : LogEntry) (l : List Act) :
    publishesOf (Act.log e :: l) = publishesOf l := by
  simp [publishesOf, pubOf]

theorem publishesOf_pub_cons (v : Option String) (l : List Act) :
    publishesOf (Act.publish v :: l) = v :: publishesOf l := by
  simp [publishesOf, pubOf]

/-- With a publisher that never raises, the record loop raises nothing, its
publish calls are exactly one per qualifying record (in record order) carrying
that record's tag id, its ha flag output is the disjunction of the input flag
with "some record qualifies", and it never touches the counter. -/
theorem recordLoop_ok (env : CardEnv) (hp : ∀ v, env.publishExn v = none) :
    ∀ (recs : List NdefRecord) (haFound : Bool),
      (recordLoop env recs haFound).2.2 = none ∧
      publishesOf (recordLoop env recs haFound).1
        = (recs.filter fun r => qualifiesHa r).map (fun r => some (tagIdOf r)) ∧
      (recordLoop env recs haFound).2.1 = (haFound || recs.any fun r => qualifiesHa r) := by
  intro recs
  induction recs with
  | nil => intro haFound; simp [recordLoop, publishesOf]
  | cons r rs ih =>
    intro haFound
    by_cases hu : r.is_uri_record
    · cases hd : r.get_decoded_uri with
      | none =>
        have hq : qualifiesHa r = false := by
          simp [qualifiesHa, hd]
        obtain ⟨h1, h2, h3⟩ := ih haFound
        simp only [recordLoop, hu, if_true, hd]
        cases hrl : recordLoop env rs haFound with
        | mk acts rest =>
          cases rest with
          | mk ha2 exn =>
            rw [hrl] at h1 h2 h3
            simp only at h1 h3
            simp only [publishesOf] at h2
            simp [publishesOf, pubOf, h1, h2, h3, hq]
      | some u =>
        by_cases hcond : (!(u == "") && pyStartsWith u HA_TAG_PREFIX) = true
        · have hq : qualifiesHa r = true := by
            simp only [qualifiesHa, hu, hd, Bool.true_and]
            exact hcond
          obtain ⟨h1, h2, h3⟩ := ih true
          simp only [recordLoop, hu, if_true, hd, hcond, hp]
          cases hrl : recordLoop env rs true with
          | mk acts rest =>
            cases rest with
            | mk ha2 exn =>
              rw [hrl] at h1 h2 h3
              simp only at h1 h3
              simp only [publishesOf] at h2
              have ht : tagIdOf r = pyDropChars u (pyLen HA_TAG_PREFIX) := by
                simp [tagIdOf, hd]
              refine ⟨h1, ?_, ?_⟩
              · simp [publishesOf, pubOf, h2, hq, ht]
              · simp [h3, hq]
        · have hq : qualifiesHa r = false := by
            simp only [qualifiesHa, hu, hd, Bool.true_and]
            simpa using hcond
          obtain ⟨h1, h2, h3⟩ := ih haFound
          simp only [recordLoop, hu, if_true, hd, hcond]
          cases hrl : recordLoop env rs haFound with
          | mk acts rest =>
            cases rest with
            | mk ha2 exn =>
              rw [hrl] at h1 h2 h3
              simp only at h1 h3
              simp only [publishesOf] at h2
              simp [publishesOf, pubOf, h1, h2, h3, hq]
    · have hq : qualifiesHa r = false := by
        simp [qualifiesHa, hu]
      by_cases ha : r.is_android_app_record
      · obtain ⟨h1, h2, h3⟩ := ih haFound
        simp only [recordLoop, hu, if_false, ha, if_true]
        cases hrl : recordLoop env rs haFound with
        | mk acts rest =>
          cases rest with
          | mk ha2 exn =>
            rw [hrl] at h1 h2 h3
            simp only at h1 h3
            simp only [publishesOf] at h2
            simp [publishesOf, pubOf, h1, h2, h3, hq]
      · obtain ⟨h1, h2, h3⟩ := ih haFound
        simp only [recordLoop, hu, if_false, ha]
        simp [h1, h2, h3, hq]

/-- The record loop never emits the counter increment, whether or not a
publish call raises. -/
theorem recordLoop_no_incr (env : CardEnv) :
    ∀ (recs : List NdefRecord) (haFound : Bool),
      (recordLoop env recs haFound).1.countP isIncr = 0 := by
  intro recs
  induction recs with
  | nil => intro haFound; simp [recordLoop]
  | cons r rs ih =>
    intro haFound
    by_cases hu : r.is_uri_record
    · cases hd : r.get_decoded_uri with
      | none =>
        simp only [recordLoop, hu, if_true, hd]
        cases hrl : recordLoop env rs haFound with
        | mk acts rest =>
          have := ih haFound
          rw [hrl] at this
          simp [countP_isIncr_append, this, isIncr, List.countP_cons]
      | some u =>
        by_cases hcond : (!(u == "") && pyStartsWith u HA_TAG_PREFIX) = true
        · simp only [recordLoop, hu, if_true, hd, hcond]
          cases hpe : env.publishExn (some (pyDropChars u (pyLen HA_TAG_PREFIX))) with
          | some e => simp [isIncr, List.countP_cons]
          | none =>
            cases hrl : recordLoop env rs true with
            | mk acts rest =>
              have := ih true
              rw [hrl] at this
              simp [countP_isIncr_append, this, isIncr, List.countP_cons]
        · simp only [recordLoop, hu, if_true, hd, hcond]
          cases hrl : recordLoop env rs haFound with
          | mk acts rest =>
            have := ih haFound
            rw [hrl] at this
            simp [countP_isIncr_append, this, isIncr, List.countP_cons]
    · by_cases ha : r.is_android_app_record
      · simp only [recordLoop, hu, if_false, ha, if_true]
        cases hrl : recordLoop env rs haFound with
        | mk acts rest =>
          have := ih haFound
          rw [hrl] at this
          simp [this, isIncr, List.countP_cons]
      · simp only [recordLoop, hu, if_false, ha]
        exact ih haFound

theorem countP_isIncr_decActs (decErr : Option String) :
    (decActsOf decErr).countP isIncr = 0 := by
  cases decErr <;> simp [decActsOf, isIncr, List.countP_cons]

theorem publishesOf_decActs (decErr : Option String) :
    publishesOf (decActsOf decErr) = [] := by
  cases decErr <;> simp [decActsOf, publishesOf, pubOf]

theorem countP_isIncr_tailActs (env : CardEnv) (haF : Bool) :
    (tailActsOf env haF).countP isIncr = 1 := by
  cases haF <;> simp [tailActsOf, isIncr, List.countP_cons]

theorem publishesOf_tailActs (env : CardEnv) (haF : Bool) :
    publishesOf (tailActsOf env haF) =
      (if haF then [] else [some ("generic_" ++ toHexString env.atr)]) := by
  cases haF <;> simp [tailActsOf, publishesOf, pubOf]

/-- On the data-present path with a publisher that never raises, the whole
try-block runs: the four connection/read steps, the decode step (plus the
decode-failure log if decoding failed), the record loop, then the generic
fallback publish if no automation tag was found, the counter increment and
the completion log, with no exception. -/
theorem processCardTry_data (env : CardEnv) (d : List Nat)
    (records : List NdefRecord) (decErr : Option String)
    (lacts : List Act) (haF : Bool)
    (h1 : env.createConnection = Except.ok true)
    (h2 : env.connect = Except.ok ())
    (h3 : env.read_ndef = Except.ok (some d, none))
    (h4 : d ≠ [])
    (hp : ∀ v, env.publishExn v = none)
    (hdec : decode_records d = (records, decErr))
    (hloop : recordLoop env records false = (lacts, haF, none)) :
    processCardTry env =
      ([Act.createConn, Act.connectCard, Act.log LogEntry.connected, Act.readCall] ++
        decActsOf decErr ++ lacts ++ tailActsOf env haF, none) := by
  have hne : (d == []) = false := by
    cases d with
    | nil => exact absurd rfl h4
    | cons x xs => rfl
  cases haF with
  | true =>
    simp only [processCardTry, h1, h2, h3, errTruthy, Option.getD, hne, hdec, hloop,
      Bool.not_true, if_false, Bool.false_eq_true, decActsOf, tailActsOf, if_true]
  | false =>
    simp only [processCardTry, h1, h2, h3, errTruthy, Option.getD, hne, hdec, hloop,
      Bool.not_true, Bool.not_false, if_false, if_true, hp, Bool.false_eq_true,
      decActsOf, tailActsOf]

/-- On the data-present path with a publisher that never raises, the handler
escapes nothing, publishes one state per qualifying record (in record order)
followed by the generic fallback exactly when no record qualified, and
increments the counter exactly once. -/
theorem processCard_data (env : CardEnv) (d : List Nat)
    (h1 : env.createConnection = Except.ok true)
    (h2 : env.connect = Except.ok ())
    (h3 : env.read_ndef = Except.ok (some d, none))
    (h4 : d ≠ [])
    (hp : ∀ v, env.publishExn v = none) :
    (processCard env).escaped = none ∧
    (processCard env).publishes =
      (((decode_records d).1.filter fun r => qualifiesHa r).map fun r => some (tagIdOf r)) ++
      (if (decode_records d).1.any (fun r => qualifiesHa r)
       then []
       else [some ("generic_" ++ toHexString env.atr)]) ∧
    (processCard env).counterDelta = 1 := by
  cases hdec : decode_records d with
  | mk records decErr =>
    obtain ⟨hexn, hpub, hha⟩ := recordLoop_ok env hp records false
    cases hrl : recordLoop env records false with
    | mk lacts rest =>
      cases rest with
      | mk haF exn =>
        rw [hrl] at hexn hpub hha
        simp only at hexn hpub hha
        subst hexn
        have htry := processCardTry_data env d records decErr lacts haF
          h1 h2 h3 h4 hp hdec hrl
        have hproc : processCard env =
            ProcResult.mk
              ([Act.createConn, Act.connectCard, Act.log LogEntry.connected,
                  Act.readCall] ++
                decActsOf decErr ++ lacts ++ tailActsOf env haF)
              none := by
          simp only [processCard, htry]
        refine ⟨by simp [hproc], ?_, ?_⟩
        · rw [hproc]
          simp only [ProcResult.publishes, publishesOf_append, publishesOf_decActs,
            publishesOf_tailActs, hpub]
          have hfirst :
              publishesOf [Act.createConn, Act.connectCard, Act.log LogEntry.connected,
                Act.readCall] = [] := by
            simp [publishesOf, pubOf]
          rw [hfirst]
          simp only [hha, Bool.false_or, List.nil_append, List.append_nil]
        · rw [hproc]
          simp only [ProcResult.counterDelta, List.countP_append, countP_isIncr_decActs,
            countP_isIncr_tailActs]
          have hl := recordLoop_no_incr env records false
          rw [hrl] at hl
          simp only at hl
          rw [hl]
          simp [isIncr, List.countP_cons]

/-- C1 counterexample: for the card carrying twoTagData (two URI records whose
decoded URIs both start with the automation-tag string, suffixes "first" and
"second") the handler calls the publisher twice, not exactly once: the publish
call at src/nfc_reader.py line 174 sits inside the per-record loop. -/
theorem c1_counterexample :
    (processCard envTwoTags).publishes = [some "first", some "second"] ∧
    (processCard envTwoTags).publishes.length ≠ 1 := by decide

/-- C1 (amended): on an inserted-card event whose read succeeds with data and
whose publisher never raises, the handler makes one publish call per decoded
record whose URI starts with the automation-tag string, and a single generic
fallback call when no record qualifies: the number of publish calls is
max 1 (number of qualifying records), not always exactly one. -/
theorem c1_publish_calls (env : CardEnv) (d : List Nat)
    (h1 : env.createConnection = Except.ok true)
    (h2 : env.connect = Except.ok ())
    (h3 : env.read_ndef = Except.ok (some d, none))
    (h4 : d ≠ [])
    (hp : ∀ v, env.publishExn v = none) :
    (processCard env).publishes.length
      = max 1 ((decode_records d).1.filter fun r => qualifiesHa r).length := by
  obtain ⟨-, hpub, -⟩ := processCard_data env d h1 h2 h3 h4 hp
  rw [hpub]
  cases hany : (decode_records d).1.any fun r => qualifiesHa r with
  | true =>
    obtain ⟨r, hr, hq⟩ := List.any_eq_true.mp hany
    have hne : ((decode_records d).1.filter fun r => qualifiesHa r) ≠ [] := by
      intro hnil
      exact (List.filter_eq_nil_iff.mp hnil) r hr hq
    have hpos : 0 < ((decode_records d).1.filter fun r => qualifiesHa r).length :=
      List.length_pos.mpr hne
    simp [Nat.max_eq_right hpos]
  | false =>
    have hnil : ((decode_records d).1.filter fun r => qualifiesHa r) = [] := by
      rw [List.filter_eq_nil_iff]
      intro a ha hqa
      have : (decode_records d).1.any (fun r => qualifiesHa r) = true :=
        List.any_eq_true.mpr ⟨a, ha, hqa⟩
      rw [hany] at this
      cases this
    simp [hnil]

/-- C1 witness: the amended statement applied to the two-tag card, whose
qualifying-record count is 2, so two publish calls are made. -/
theorem c1_witness :
    twoTagData ≠ [] ∧
    (processCard envTwoTags).publishes.length
      = max 1 ((decode_records twoTagData).1.filter fun r => qualifiesHa r).length :=
  ⟨by decide, c1_publish_calls envTwoTags twoTagData rfl rfl rfl (by decide) (fun v => rfl)⟩

/-- C2 counterexample: for the card carrying twoTagData the publisher is not
handed only the state "second": the state "first" is forwarded as well (the
source publishes each qualifying record as it scans). -/
theorem c2_counterexample :
    (processCard envTwoTags).publishes ≠ [some "second"] ∧
    (processCard envTwoTags).publishes = [some "first", some "second"] := by decide

/-- C2 (amended): for the two-record sequence with suffixes "first" then
"second", both qualifying records are published in record order, and the last
publish call of the event carries "second", so the last qualifying record
determines the final published state (earlier matches are forwarded too,
not suppressed). -/
theorem c2_last_match_wins :
    (processCard envTwoTags).publishes = [some "first", some "second"] ∧
    (processCard envTwoTags).publishes.getLast? = some (some "second") := by decide

/-- C3: two concurrently running insertion tasks are never both inside their
read/decode/classify/resolve/publish sequence: every pipeline action of a task
sits between its acquisition and release of the shared processing_lock
(src/nfc_reader.py line 113), so in every reachable interleaving at most one
task is inside the critical section. -/
theorem c3_mutual_exclusion (e0 e1 : CardEnv) (s : SysState)
    (h : Reachable e0 e1 s) :
    ¬(inCritical e0 e1 s 0 ∧ inCritical e0 e1 s 1) := by
  intro hc
  obtain ⟨hc0, hc1⟩ := hc
  have hinv := lockInv_reachable e0 e1 s h
  have h0 := hinv.2 0 hc0
  have h1 := hinv.2 1 hc1
  rw [h0] at h1
  have : (0 : Fin 2) = 1 := by injection h1
  exact absurd this (by decide)

/-- C3 witness: the initial state of two concurrent two-tag card tasks is
reachable, and mutual exclusion holds there. -/
theorem c3_witness :
    Reachable envTwoTags envTwoTags (initState envTwoTags envTwoTags) ∧
    ¬(inCritical envTwoTags envTwoTags (initState envTwoTags envTwoTags) 0 ∧
      inCritical envTwoTags envTwoTags (initState envTwoTags envTwoTags) 1) :=
  ⟨Reachable.init, c3_mutual_exclusion envTwoTags envTwoTags _ Reachable.init⟩

/-- C4: when decoding fails on a malformed buffer, the handler logs the decode
failure, still runs the per-record scan on the successfully-decoded prefix
(publishing its qualifying tags or the generic fallback), and ends with at
least one publish call rather than aborting the event unpublished. -/
theorem c4_decode_failure_continues (env : CardEnv) (d : List Nat) (msg : String)
    (h1 : env.createConnection = Except.ok true)
    (h2 : env.connect = Except.ok ())
    (h3 : env.read_ndef = Except.ok (some d, none))
    (h4 : d ≠ [])
    (hp : ∀ v, env.publishExn v = none)
    (hdec : (decode_records d).2 = some msg) :
    LogEntry.decodeFailure msg ∈ (processCard env).logs ∧
    (processCard env).publishes =
      (((decode_records d).1.filter fun r => qualifiesHa r).map fun r => some (tagIdOf r)) ++
      (if (decode_records d).1.any (fun r => qualifiesHa r)
       then []
       else [some ("generic_" ++ toHexString env.atr)]) ∧
    (processCard env).publishes ≠ [] := by
  obtain ⟨-, hpub, -⟩ := processCard_data env d h1 h2 h3 h4 hp
  refine ⟨?_, hpub, ?_⟩
  · cases hd : decode_records d with
    | mk records decErr =>
      obtain ⟨hexn, -, -⟩ := recordLoop_ok env hp records false
      cases hrl : recordLoop env records false with
      | mk lacts rest =>
        cases rest with
        | mk haF exn =>
          rw [hrl] at hexn
          simp only at hexn
          subst hexn
          have htry := processCardTry_data env d records decErr lacts haF
            h1 h2 h3 h4 hp hd hrl
          have hmsg : decErr = some msg := by
            rw [hd] at hdec
            exact hdec
          subst hmsg
          have hproc : processCard env =
              ProcResult.mk
                ([Act.createConn, Act.connectCard, Act.log LogEntry.connected,
                    Act.readCall] ++
                  decActsOf (some msg) ++ lacts ++ tailActsOf env haF)
                none := by
            simp only [processCard, htry]
          rw [hproc]
          simp [ProcResult.logs, decActsOf, logOf]
  · rw [hpub]
    cases hany : (decode_records d).1.any fun r => qualifiesHa r with
    | true =>
      obtain ⟨r, hr, hq⟩ := List.any_eq_true.mp hany
      have hne : ((decode_records d).1.filter fun r => qualifiesHa r) ≠ [] := by
        intro hnil
        exact (List.filter_eq_nil_iff.mp hnil) r hr hq
      simp [hne]
    | false => simp

/-- C4 witness: the truncated buffer truncTagData (one good automation-tag
record, then a lone header byte) triggers the decode-failure log and the tag
"abc123" from the decoded prefix is still published. -/
theorem c4_witness :
    LogEntry.decodeFailure "truncated: type length" ∈ (processCard envTrunc).logs ∧
    (processCard envTrunc).publishes ≠ [] :=
  ⟨(c4_decode_failure_continues envTrunc truncTagData "truncated: type length"
      rfl rfl rfl (by decide) (fun v => rfl) (by decide)).1,
   (c4_decode_failure_continues envTrunc truncTagData "truncated: type length"
      rfl rfl rfl (by decide) (fun v => rfl) (by decide)).2.2⟩

/-- C5: when read_ndef reports an error, the handler logs it and stops: no
publish call is made, no decode step is taken, nothing escapes, and the
whole action trace is just the connection steps, the read and the error
log. -/
theorem c5_read_error_no_publish (env : CardEnv) (dat : Option (List Nat)) (msg : String)
    (h1 : env.createConnection = Except.ok true)
    (h2 : env.connect = Except.ok ())
    (h3 : env.read_ndef = Except.ok (dat, some msg))
    (hm : msg ≠ "") :
    (processCard env).publishes = [] ∧
    LogEntry.errorReadingNdef msg ∈ (processCard env).logs ∧
    Act.decodeCall ∉ (processCard env).actions ∧
    (processCard env).escaped = none := by
  have htruthy : errTruthy (some msg) = true := by
    simp [errTruthy, hm]
  have htry : processCardTry env =
      ([Act.createConn, Act.connectCard, Act.log LogEntry.connected, Act.readCall] ++
        [Act.log (LogEntry.errorReadingNdef msg)], none) := by
    simp only [processCardTry, h1, h2, h3, htruthy, Bool.not_true, if_false, if_true,
      Option.getD, Bool.false_eq_true]
  have hproc : processCard env =
      ProcResult.mk
        ([Act.createConn, Act.connectCard, Act.log LogEntry.connected, Act.readCall] ++
          [Act.log (LogEntry.errorReadingNdef msg)])
        none := by
    simp only [processCard, htry]
  rw [hproc]
  refine ⟨by simp [ProcResult.publishes, publishesOf, pubOf], ?_, ?_, rfl⟩
  · simp [ProcResult.logs, logOf]
  · intro hmem
    simp at hmem

/-- C5 witness: the read-error collaborator behaviour publishes nothing and
logs the read error. -/
theorem c5_witness :
    (processCard envReadErr).publishes = [] ∧
    LogEntry.errorReadingNdef "read failed" ∈ (processCard envReadErr).logs :=
  ⟨(c5_read_error_no_publish envReadErr none "read failed" rfl rfl rfl (by decide)).1,
   (c5_read_error_no_publish envReadErr none "read failed" rfl rfl rfl (by decide)).2.1⟩

/-- C6: when read_ndef reports no error but no (or empty) data, the handler
logs it and publishes exactly one state: "no_ndef_" followed by the card's
ATR rendered by toHexString. -/
theorem c6_no_data_publishes_no_ndef (env : CardEnv) (dat : Option (List Nat))
    (h1 : env.createConnection = Except.ok true)
    (h2 : env.connect = Except.ok ())
    (h3 : env.read_ndef = Except.ok (dat, none))
    (hempty : dat = none ∨ dat = some [])
    (hpn : env.publishExn (some ("no_ndef_" ++ toHexString env.atr)) = none) :
    (processCard env).publishes = [some ("no_ndef_" ++ toHexString env.atr)] ∧
    LogEntry.noNdefData ∈ (processCard env).logs ∧
    (processCard env).escaped = none := by
  have hgetd : dat.getD [] = [] := by
    rcases hempty with h | h <;> simp [h]
  have htry : processCardTry env =
      ([Act.createConn, Act.connectCard, Act.log LogEntry.connected, Act.readCall] ++
        [Act.log LogEntry.noNdefData,
          Act.publish (some ("no_ndef_" ++ toHexString env.atr))], none) := by
    simp only [processCardTry, h1, h2, h3, errTruthy, Bool.not_true, if_false, if_true,
      hgetd, noNdefBranch, hpn, Bool.false_eq_true, beq_self_eq_true]
  have hproc : processCard env =
      ProcResult.mk
        ([Act.createConn, Act.connectCard, Act.log LogEntry.connected, Act.readCall] ++
          [Act.log LogEntry.noNdefData,
            Act.publish (some ("no_ndef_" ++ toHexString env.atr))])
        none := by
    simp only [processCard, htry]
  rw [hproc]
  refine ⟨by simp [ProcResult.publishes, publishesOf, pubOf], ?_, rfl⟩
  simp [ProcResult.logs, logOf]

/-- C6 witness: the no-data collaborator behaviour publishes the no-NDEF state
built from the ATR hex string "3B 10". -/
theorem c6_witness :
    (processCard envNoData).publishes = [some ("no_ndef_" ++ toHexString envNoData.atr)] ∧
    LogEntry.noNdefData ∈ (processCard envNoData).logs :=
  ⟨(c6_no_data_publishes_no_ndef envNoData none rfl rfl rfl (Or.inl rfl) rfl).1,
   (c6_no_data_publishes_no_ndef envNoData none rfl rfl rfl (Or.inl rfl) rfl).2.1⟩

theorem insertLoop_ok (uenv : UpdateEnv) :
    ∀ (cs : List Card), (∀ c ∈ cs, uenv.spawnExn c = none) →
      (insertLoop uenv cs).2 = none ∧
      publishesOf (insertLoop uenv cs).1 = [] ∧
      (insertLoop uenv cs).1.filterMap spawnOf = cs ∧
      (∀ a ∈ (insertLoop uenv cs).1, isPipelineStep a = false) := by
  intro cs
  induction cs with
  | nil =>
    intro _
    refine ⟨rfl, rfl, rfl, ?_⟩
    intro a ha
    simp [insertLoop] at ha
  | cons c cs ih =>
    intro hs
    have hc : uenv.spawnExn c = none := hs c (by simp)
    obtain ⟨h1, h2, h3, h4⟩ := ih (fun x hx => hs x (by simp [hx]))
    simp only [insertLoop, hc]
    cases hil : insertLoop uenv cs with
    | mk more exn =>
      rw [hil] at h1 h2 h3 h4
      simp only at h1 h2 h3 h4
      refine ⟨h1, ?_, ?_, ?_⟩
      · simp only [publishesOf_append, h2, List.append_nil]
        simp [publishesOf, pubOf]
      · simp only [List.cons_append, List.nil_append, List.filterMap_cons]
        simp [spawnOf, h3]
      · intro a ha
        simp only [List.cons_append, List.nil_append, List.mem_cons] at ha
        rcases ha with h | h | h
        · subst h; rfl
        · subst h; rfl
        · exact h4 a h

theorem removeLoop_ok (uenv : UpdateEnv) (hp : uenv.publishExn none = none) :
    ∀ (cs : List Card),
      (removeLoop uenv cs).2 = none ∧
      publishesOf (removeLoop uenv cs).1 = cs.map (fun _ => none) ∧
      (removeLoop uenv cs).1.filterMap spawnOf = [] ∧
      (∀ a ∈ (removeLoop uenv cs).1, isPipelineStep a = false) := by
  intro cs
  induction cs with
  | nil =>
    refine ⟨rfl, rfl, rfl, ?_⟩
    intro a ha
    simp [removeLoop] at ha
  | cons c cs ih =>
    obtain ⟨h1, h2, h3, h4⟩ := ih
    simp only [removeLoop, hp]
    cases hrm : removeLoop uenv cs with
    | mk more exn =>
      rw [hrm] at h1 h2 h3 h4
      simp only at h1 h2 h3 h4
      refine ⟨h1, ?_, ?_, ?_⟩
      · simp only [publishesOf_append, h2]
        simp [publishesOf, pubOf]
      · simp only [List.cons_append, List.nil_append, List.filterMap_cons]
        simp [spawnOf, h3]
      · intro a ha
        simp only [List.cons_append, List.nil_append, List.mem_cons] at ha
        rcases ha with h | h | h
        · subst h; rfl
        · subst h; rfl
        · exact h4 a h

/-- C7: a card-removal event always yields exactly one publish call with the
absence marker (None) per removed card — regardless of any prior insertion
state, since update is a function of the batch alone — and the monitor takes
no connection, read, decode or counter step for it; insertions only spawn
threads (the lock acquisition lives in the spawned program, so removals
bypass the lock). -/
theorem c7_removal_publishes_absent (uenv : UpdateEnv) (added removed : List Card)
    (hs : ∀ c ∈ added, uenv.spawnExn c = none)
    (hp : uenv.publishExn none = none) :
    (update uenv added removed).publishes = removed.map (fun _ => none) ∧
    (update uenv added removed).spawns = added ∧
    (∀ a ∈ (update uenv added removed).actions, isPipelineStep a = false) ∧
    (update uenv added removed).escaped = none := by
  obtain ⟨hi1, hi2, hi3, hi4⟩ := insertLoop_ok uenv added hs
  obtain ⟨hr1, hr2, hr3, hr4⟩ := removeLoop_ok uenv hp removed
  cases hil : insertLoop uenv added with
  | mk a1 e1 =>
    cases hrm : removeLoop uenv removed with
    | mk a2 e2 =>
      rw [hil] at hi1 hi2 hi3 hi4
      rw [hrm] at hr1 hr2 hr3 hr4
      simp only at hi1 hi2 hi3 hi4 hr1 hr2 hr3 hr4
      subst hi1
      subst hr1
      have hupd : update uenv added removed = ProcResult.mk (a1 ++ a2) none := by
        simp only [update, updateTry, hil, hrm]
      rw [hupd]
      refine ⟨?_, ?_, ?_, rfl⟩
      · simp only [ProcResult.publishes, publishesOf_append, hi2, hr2, List.nil_append]
      · simp only [ProcResult.spawns, List.filterMap_append, hi3, hr3, List.append_nil]
      · intro a ha
        rcases List.mem_append.mp ha with h | h
        · exact hi4 a h
        · exact hr4 a h

/-- C7 witness: one removed card, no insertions: exactly one absent-marker
publish and no pipeline step. -/
theorem c7_witness :
    (update uenvOk [] [card0]).publishes = [card0].map (fun _ => none) ∧
    (update uenvOk [] [card0]).escaped = none :=
  ⟨(c7_removal_publishes_absent uenvOk [] [card0] (fun c hc => by cases hc) rfl).1,
   (c7_removal_publishes_absent uenvOk [] [card0] (fun c hc => by cases hc) rfl).2.2.2⟩

/-- C8: failure isolation.  Any exception the try-block body of _process_card
raises is caught at that task's boundary (logged as "Error processing card",
nothing escapes); any exception the update body raises is caught at the
callback boundary (logged as "Error in observer update", nothing escapes);
hence the monitor delivers every batch of a run: one result per batch, none
of which lets an exception escape. -/
theorem c8_failure_isolation :
    (∀ (env : CardEnv) (acts : List Act) (e : String),
        processCardTry env = (acts, some e) →
        processCard env =
          ProcResult.mk (acts ++ [Act.log (LogEntry.errorProcessingCard e)]) none) ∧
    (∀ env : CardEnv, (processCard env).escaped = none) ∧
    (∀ (uenv : UpdateEnv) (added removed : List Card) (acts : List Act) (e : String),
        updateTry uenv added removed = (acts, some e) →
        update uenv added removed =
          ProcResult.mk (acts ++ [Act.log (LogEntry.errorInUpdate e)]) none) ∧
    (∀ (uenv : UpdateEnv) (added removed : List Card),
        (update uenv added removed).escaped = none) ∧
    (∀ (uenv : UpdateEnv) (batches : List (List Card × List Card)),
        (monitorRun uenv batches).length = batches.length ∧
        ∀ res ∈ monitorRun uenv batches, res.escaped = none) := by
  refine ⟨?_, ?_, ?_, ?_, ?_⟩
  · intro env acts e h
    simp only [processCard, h]
  · intro env
    cases h : processCardTry env with
    | mk acts exn =>
      cases exn <;> simp [processCard, h]
  · intro uenv added removed acts e h
    simp only [update, h]
  · intro uenv added removed
    cases h : updateTry uenv added removed with
    | mk acts exn =>
      cases exn <;> simp [update, h]
  · intro uenv batches
    constructor
    · simp [monitorRun]
    · intro res hres
      simp only [monitorRun, List.mem_map] at hres
      obtain ⟨b, -, hb⟩ := hres
      subst hb
      cases h : updateTry uenv b.1 b.2 with
      | mk acts exn =>
        cases exn <;> simp [update, h]

/-- C8 witness: a connect() that raises is caught at the task boundary and
logged; nothing escapes. -/
theorem c8_witness :
    processCard envConnectFail =
      ProcResult.mk
        ([Act.createConn, Act.connectCard] ++
          [Act.log (LogEntry.errorProcessingCard "connect failed")])
        none :=
  c8_failure_isolation.1 envConnectFail [Act.createConn, Act.connectCard]
    "connect failed" rfl

/-- A record with external TNF is not a URI record (well-known TNF), so the
elif at src/nfc_reader.py line 177 is reachable for it. -/
theorem aar_not_uri (r : NdefRecord) (h : r.is_android_app_record = true) :
    r.is_uri_record = false := by
  simp only [NdefRecord.is_android_app_record, Bool.and_eq_true, beq_iff_eq] at h
  simp only [NdefRecord.is_uri_record]
  have : r.tnf = 4 := h.1
  simp [this]

/-- With a publisher that never raises, the record loop reaches every record;
for an Android application record it logs the package name. -/
theorem recordLoop_aar_logged (env : CardEnv) (hp : ∀ v, env.publishExn v = none) :
    ∀ (recs : List NdefRecord) (haFound : Bool) (r : NdefRecord),
      r ∈ recs → r.is_android_app_record = true →
      Act.log (LogEntry.androidPackage r.get_android_package_name) ∈
        (recordLoop env recs haFound).1 := by
  intro recs
  induction recs with
  | nil =>
    intro haFound r hr
    cases hr
  | cons x rs ih =>
    intro haFound r hr haar
    rcases List.mem_cons.mp hr with heq | hmem
    · subst heq
      have hu : r.is_uri_record = false := aar_not_uri r haar
      simp only [recordLoop, hu, if_false, haar, if_true, Bool.false_eq_true]
      cases hrl : recordLoop env rs haFound with
      | mk acts rest => simp
    · by_cases hu : x.is_uri_record
      · cases hd : x.get_decoded_uri with
        | none =>
          simp only [recordLoop, hu, if_true, hd]
          cases hrl : recordLoop env rs haFound with
          | mk acts rest =>
            have := ih haFound r hmem haar
            rw [hrl] at this
            simp only at this
            simp [this]
        | some u =>
          by_cases hcond : (!(u == "") && pyStartsWith u HA_TAG_PREFIX) = true
          · simp only [recordLoop, hu, if_true, hd, hcond, hp]
            cases hrl : recordLoop env rs true with
            | mk acts rest =>
              have := ih true r hmem haar
              rw [hrl] at this
              simp only at this
              simp [this]
          · simp only [recordLoop, hu, if_true, hd, hcond]
            cases hrl : recordLoop env rs haFound with
            | mk acts rest =>
              have := ih haFound r hmem haar
              rw [hrl] at this
              simp only at this
              simp [this]
      · by_cases hx : x.is_android_app_record
        · simp only [recordLoop, hu, if_false, hx, if_true, Bool.false_eq_true]
          cases hrl : recordLoop env rs haFound with
          | mk acts rest =>
            have := ih haFound r hmem haar
            rw [hrl] at this
            simp only at this
            simp [this]
        · simp only [recordLoop, hu, if_false, hx, Bool.false_eq_true]
          exact ih haFound r hmem haar

/-- C9: an Android application record is surfaced in the log only; when no
decoded record's URI starts with the automation-tag string, the event's only
publish is the generic fallback built from the ATR hex string — the
application record never changes the resolved identity. -/
theorem c9_aar_diagnostic_only (env : CardEnv) (d : List Nat) (r : NdefRecord)
    (h1 : env.createConnection = Except.ok true)
    (h2 : env.connect = Except.ok ())
    (h3 : env.read_ndef = Except.ok (some d, none))
    (h4 : d ≠ [])
    (hp : ∀ v, env.publishExn v = none)
    (hnoha : ∀ q ∈ (decode_records d).1, qualifiesHa q = false)
    (hr : r ∈ (decode_records d).1)
    (haar : r.is_android_app_record = true) :
    (processCard env).publishes = [some ("generic_" ++ toHexString env.atr)] ∧
    LogEntry.androidPackage r.get_android_package_name ∈ (processCard env).logs := by
  obtain ⟨-, hpub, -⟩ := processCard_data env d h1 h2 h3 h4 hp
  constructor
  · rw [hpub]
    have hnil : ((decode_records d).1.filter fun q => qualifiesHa q) = [] := by
      rw [List.filter_eq_nil_iff]
      intro a ha hq
      rw [hnoha a ha] at hq
      cases hq
    have hany : ((decode_records d).1.any fun q => qualifiesHa q) = false := by
      rw [Bool.eq_false_iff]
      intro hcontra
      obtain ⟨a, ha, hq⟩ := List.any_eq_true.mp hcontra
      rw [hnoha a ha] at hq
      cases hq
    simp [hnil, hany]
  · cases hdec : decode_records d with
    | mk records decErr =>
      rw [hdec] at hr
      simp only at hr
      obtain ⟨hexn, -, -⟩ := recordLoop_ok env hp records false
      cases hrl : recordLoop env records false with
      | mk lacts rest =>
        cases rest with
        | mk haF exn =>
          rw [hrl] at hexn
          simp only at hexn
          subst hexn
          have htry := processCardTry_data env d records decErr lacts haF
            h1 h2 h3 h4 hp hdec hrl
          have hproc : processCard env =
              ProcResult.mk
                ([Act.createConn, Act.connectCard, Act.log LogEntry.connected,
                    Act.readCall] ++
                  decActsOf decErr ++ lacts ++ tailActsOf env haF)
                none := by
            simp only [processCard, htry]
          rw [hproc]
          have hmem := recordLoop_aar_logged env hp records false r hr haar
          rw [hrl] at hmem
          simp only at hmem
          simp only [ProcResult.logs, List.filterMap_append]
          have hlog : LogEntry.androidPackage r.get_android_package_name ∈
              List.filterMap logOf lacts :=
            List.mem_filterMap.mpr
              ⟨Act.log (LogEntry.androidPackage r.get_android_package_name), hmem, rfl⟩
          simp [hlog]

/-- C9 witness: the single-application-record card aarData publishes only the
generic state for ATR "3B 10" and logs the package of the decoded application
record. -/
theorem c9_witness :
    (processCard envAar).publishes = [some ("generic_" ++ toHexString envAar.atr)] ∧
    LogEntry.androidPackage aarRec.get_android_package_name ∈ (processCard envAar).logs :=
  ⟨(c9_aar_diagnostic_only envAar aarData aarRec rfl rfl rfl (by decide) (fun v => rfl)
      (by decide) (by decide) (by decide)).1,
   (c9_aar_diagnostic_only envAar aarData aarRec rfl rfl rfl (by decide) (fun v => rfl)
      (by decide) (by decide) (by decide)).2⟩

/-- Every exception point of the try-block body (connection creation, connect,
read, or a raising publish call) sits before the counter increment, so a
try-block that ends in an exception has taken no increment action. -/
theorem processCardTry_exn_no_incr (env : CardEnv) :
    ∀ (acts : List Act) (e : String),
      processCardTry env = (acts, some e) → acts.countP isIncr = 0 := by
  intro acts e h
  cases hc : env.createConnection with
  | error e1 =>
    simp only [processCardTry, hc] at h
    rw [Prod.mk.injEq] at h
    obtain ⟨ha, -⟩ := h
    subst ha
    decide
  | ok valid =>
    cases valid with
    | false =>
      simp only [processCardTry, hc, Bool.not_false, if_true] at h
      simp at h
    | true =>
      cases hco : env.connect with
      | error e1 =>
        simp only [processCardTry, hc, hco, Bool.not_true, if_false,
          Bool.false_eq_true] at h
        rw [Prod.mk.injEq] at h
        obtain ⟨ha, -⟩ := h
        subst ha
        decide
      | ok u =>
        cases u
        cases hr : env.read_ndef with
        | error e1 =>
          simp only [processCardTry, hc, hco, hr, Bool.not_true, if_false,
            Bool.false_eq_true] at h
          rw [Prod.mk.injEq] at h
          obtain ⟨ha, -⟩ := h
          subst ha
          decide
        | ok pr =>
          cases pr with
          | mk dat err =>
            cases ht : errTruthy err with
            | true =>
              simp only [processCardTry, hc, hco, hr, ht, Bool.not_true, if_false,
                if_true, Bool.false_eq_true] at h
              simp at h
            | false =>
              cases hgd : (dat.getD [] == []) with
              | true =>
                simp only [processCardTry, hc, hco, hr, ht, hgd, noNdefBranch,
                  Bool.not_true, if_false, if_true, Bool.false_eq_true] at h
                rw [Prod.mk.injEq] at h
                obtain ⟨ha, -⟩ := h
                subst ha
                simp [List.countP_append, isIncr, List.countP_cons]
              | false =>
                cases hdec : decode_records (dat.getD []) with
                | mk records decErr =>
                  have hl := recordLoop_no_incr env records false
                  cases hrl : recordLoop env records false with
                  | mk lacts rest =>
                    cases rest with
                    | mk haF exn =>
                      rw [hrl] at hl
                      simp only at hl
                      cases exn with
                      | some e1 =>
                        simp only [processCardTry, hc, hco, hr, ht, hgd, hdec, hrl,
                          Bool.not_true, if_false, if_true, Bool.false_eq_true] at h
                        rw [Prod.mk.injEq] at h
                        obtain ⟨ha, -⟩ := h
                        subst ha
                        cases decErr <;>
                          simp [List.countP_append, isIncr, List.countP_cons, hl]
                      | none =>
                        cases haF with
                        | true =>
                          simp only [processCardTry, hc, hco, hr, ht, hgd, hdec, hrl,
                            Bool.not_true, Bool.not_false, if_false, if_true,
                            Bool.false_eq_true] at h
                          simp at h
                        | false =>
                          cases hpe : env.publishExn
                              (some ("generic_" ++ toHexString env.atr)) with
                          | some e1 =>
                            simp only [processCardTry, hc, hco, hr, ht, hgd, hdec, hrl,
                              hpe, Bool.not_true, Bool.not_false, if_false, if_true,
                              Bool.false_eq_true] at h
                            rw [Prod.mk.injEq] at h
                            obtain ⟨ha, -⟩ := h
                            subst ha
                            cases decErr <;>
                              simp [List.countP_append, isIncr, List.countP_cons, hl]
                          | none =>
                            simp only [processCardTry, hc, hco, hr, ht, hgd, hdec, hrl,
                              hpe, Bool.not_true, Bool.not_false, if_false, if_true,
                              Bool.false_eq_true] at h
                            simp at h

/-- C10: the cards_processed counter is mutated only while the task holds
processing_lock (any increment step in a reachable interleaving is taken by
the lock holder), and it moves by exactly one only when a card reaches the
end of the full decode-and-publish path: a caught exception, a truthy read
error, absent or empty data, and an invalid connection object all leave it
unchanged, while the completed data path adds exactly one. -/
theorem c10_counter_discipline :
    (∀ (e0 e1 : CardEnv) (s : SysState) (i : Fin 2) (s' : SysState),
        Reachable e0 e1 s → LStep s i (PStep.act Act.incrCounter) s' →
        s.holder = some i) ∧
    (∀ (env : CardEnv) (acts : List Act) (e : String),
        processCardTry env = (acts, some e) →
        (processCard env).counterDelta = 0) ∧
    (∀ (env : CardEnv) (dat : Option (List Nat)) (msg : String),
        env.createConnection = Except.ok true → env.connect = Except.ok () →
        env.read_ndef = Except.ok (dat, some msg) → msg ≠ "" →
        (processCard env).counterDelta = 0) ∧
    (∀ (env : CardEnv) (dat : Option (List Nat)),
        env.createConnection = Except.ok true → env.connect = Except.ok () →
        env.read_ndef = Except.ok (dat, none) → (dat = none ∨ dat = some []) →
        env.publishExn (some ("no_ndef_" ++ toHexString env.atr)) = none →
        (processCard env).counterDelta = 0) ∧
    (∀ env : CardEnv,
        env.createConnection = Except.ok false →
        (processCard env).counterDelta = 0) ∧
    (∀ (env : CardEnv) (d : List Nat),
        env.createConnection = Except.ok true → env.connect = Except.ok () →
        env.read_ndef = Except.ok (some d, none) → d ≠ [] →
        (∀ v, env.publishExn v = none) →
        (processCard env).counterDelta = 1) := by
  refine ⟨?_, ?_, ?_, ?_, ?_, ?_⟩
  · intro e0 e1 s i s' hre hstep
    cases hstep with
    | act a rest hp =>
      have hinv := lockInv_reachable e0 e1 s hre
      apply hinv.2 i
      constructor
      · rw [hp]
        obtain ⟨tl, htl⟩ := programOf_head e0 e1 i
        rw [htl]
        intro hcontra
        cases hcontra
      · rw [hp]
        simp
  · intro env acts e h
    have hcnt := processCardTry_exn_no_incr env acts e h
    simp only [processCard, h, ProcResult.counterDelta]
    simp [List.countP_append, hcnt, isIncr, List.countP_cons]
  · intro env dat msg h1 h2 h3 hm
    have htruthy : errTruthy (some msg) = true := by
      simp [errTruthy, hm]
    have htry : processCardTry env =
        ([Act.createConn, Act.connectCard, Act.log LogEntry.connected, Act.readCall] ++
          [Act.log (LogEntry.errorReadingNdef msg)], none) := by
      simp only [processCardTry, h1, h2, h3, htruthy, Bool.not_true, if_false, if_true,
        Option.getD, Bool.false_eq_true]
    simp only [processCard, htry, ProcResult.counterDelta]
    simp [List.countP_append, isIncr, List.countP_cons]
  · intro env dat h1 h2 h3 hempty hpn
    have hgetd : dat.getD [] = [] := by
      rcases hempty with h | h <;> simp [h]
    have htry : processCardTry env =
        ([Act.createConn, Act.connectCard, Act.log LogEntry.connected, Act.readCall] ++
          [Act.log LogEntry.noNdefData,
            Act.publish (some ("no_ndef_" ++ toHexString env.atr))], none) := by
      simp only [processCardTry, h1, h2, h3, errTruthy, Bool.not_true, if_false, if_true,
        hgetd, noNdefBranch, hpn, Bool.false_eq_true, beq_self_eq_true]
    simp only [processCard, htry, ProcResult.counterDelta]
    simp [List.countP_append, isIncr, List.countP_cons]
  · intro env h1
    have htry : processCardTry env =
        ([Act.createConn, Act.log LogEntry.invalidConnectionType], none) := by
      simp only [processCardTry, h1, Bool.not_false, if_true]
    simp only [processCard, htry, ProcResult.counterDelta]
    decide
  · intro env d h1 h2 h3 h4 hp
    exact (processCard_data env d h1 h2 h3 h4 hp).2.2

/-- C10 witness: a truthy read error leaves the counter unchanged. -/
theorem c10_witness : (processCard envReadErr).counterDelta = 0 :=
  c10_counter_discipline.2.2.1 envReadErr none "read failed" rfl rfl rfl (by decide)
